import Mathlib

/-!
Verification development for the freqtrade backtesting engine and the
stoploss-guard protection plugin.

The backtesting engine itself (freqtrade/optimize/backtesting.py) is not part
of the source tree given here; only its test-suite is.  The engine is
therefore modelled from the specification (sections 3 to 4.6 of spec.md):
aligned per-pair candle series, a timestamp-major deterministic event loop
that opens positions on buy signals one candle after the signal candle,
walks the exit-rule evaluator (stop-loss, trailing stop, ROI table, sell
signal, in that priority order) and force-closes surviving positions at the
window end.  StoplossGuard is embedded directly from
src/freqtrade/plugins/protections/stoploss_guard.py.
-/

namespace Freqtrade

attribute [local semireducible] Rat.add Rat.mul Rat.sub Rat.inv

/-- Modelled from the spec: a Candle (section 3) is one fixed-interval price
bar with the strategy-computed buy and sell boolean flags.  Timestamps are
derived from the candle index (the series is contiguous at a fixed interval
after fill-missing normalisation), so the candle itself stores only prices,
volume and the signal flags. -/
structure Candle where
  copen : ℚ
  chigh : ℚ
  clow : ℚ
  cclose : ℚ
  volume : ℚ
  buy : Bool
  sell : Bool
deriving DecidableEq, Repr

/-- Modelled from the spec: the SellReason enumeration (section 3). -/
inductive SellReason where
  | ROI
  | STOP_LOSS
  | TRAILING_STOP_LOSS
  | SELL_SIGNAL
  | FORCE_SELL
deriving DecidableEq, Repr

/-- Modelled from the spec: the run configuration consumed by the backtest
driver (sections 4.3 to 4.5 and 6): stop-loss threshold, ROI table, sell
signal switch, trailing stop parameters, fee fraction, concurrency limit
(none encodes the unlimited sentinel), position stacking flag, ticker
interval in minutes, the epoch minute of candle 0, and the resolved
per-position stake. -/
structure BTConfig where
  stoploss : ℚ
  minimal_roi : List (Nat × ℚ)
  use_sell_signal : Bool
  trailing_stop : Bool
  trailing_stop_positive : ℚ
  fee : ℚ
  max_open_trades : Option Nat
  position_stacking : Bool
  interval_min : Nat
  start_time : Nat
  stake_amount : ℚ
deriving DecidableEq, Repr

/-- Modelled from the spec: an OpenPosition (section 3) - pair, entry candle
index, entry timestamp, entry rate and stake, plus the peak-profit tracker
used by the trailing stop (section 4.4 step 3). -/
structure OpenPosition where
  pair : String
  open_index : Nat
  open_time : Nat
  open_rate : ℚ
  stake : ℚ
  peak : ℚ
deriving DecidableEq, Repr

/-- Modelled from the spec: a ClosedTrade result record (section 3). -/
structure ClosedTrade where
  pair : String
  open_time : Nat
  close_time : Nat
  open_rate : ℚ
  close_rate : ℚ
  open_index : Nat
  close_index : Nat
  trade_duration : Nat
  profit_percent : ℚ
  profit_abs : ℚ
  open_at_end : Bool
  sell_reason : SellReason
deriving DecidableEq, Repr

/-- State of the backtest driver: the Position Tracker's open positions plus
the Result Aggregator's closed-trade table. -/
structure BTState where
  openPos : List OpenPosition
  closed : List ClosedTrade
deriving DecidableEq, Repr

/-- Per-pair input series: an association list from pair name to its aligned
candle sequence. -/
abbrev PairData := List (String × List Candle)

/-- Timestamp (epoch minutes) of the candle at index `i`: the series is
contiguous at a fixed interval. -/
def candleDate (cfg : BTConfig) (i : Nat) : Nat :=
  cfg.start_time + i * cfg.interval_min

/-- Candle list of a pair, looked up in the input data; empty if absent. -/
def findPair (data : PairData) (pn : String) : List Candle :=
  match data.find? (fun pr => pr.1 == pn) with
  | some pr => pr.2
  | none => []

/-- Modelled from the spec: the Timeframe Resolver (section 4.2) intersects
all series; on aligned input the usable window length is the minimum series
length across pairs (0 when there are no pairs). -/
def winLen (data : PairData) : Nat :=
  match data with
  | [] => 0
  | pr :: rest => rest.foldl (fun acc q => min acc q.2.length) pr.2.length

/-- Modelled from the spec: profit fraction of a position
(section 4.3, close operation) with symmetric fee schedule. -/
def profitPercent (fee op cr : ℚ) : ℚ :=
  (cr * (1 - fee) - op * (1 + fee)) / (op * (1 + fee))

/-- Modelled from the spec: ROI table lookup (section 4.4 step 4) - the
minimum-roi of the entry with the highest elapsed-minutes threshold not
exceeding the elapsed time, none when no threshold applies. -/
def roiValue (tbl : List (Nat × ℚ)) (elapsed : Nat) : Option ℚ :=
  ((tbl.filter (fun e => e.1 ≤ elapsed)).map Prod.snd).getLast?

/-- Sell flag of the candle preceding index `j` (the causality shift: the
decision taken on candle j-1 is executed on candle j). -/
def prevSell (cs : List Candle) (j : Nat) : Bool :=
  match cs.get? (j - 1) with
  | some cp => cp.sell
  | none => false

/-- Modelled from the spec: the Exit Rule Evaluator (section 4.4) for one
open position at one candle, in the fixed priority order stop-loss, then
trailing stop, then ROI table, then sell signal; returns the reason and the
fill rate (the candle open, per section 4.4 step 2 and the causality rule of
section 4.5), or none when no exit condition fires. -/
def exitSignal (cfg : BTConfig) (cs : List Candle) (j : Nat) (p : OpenPosition)
    (c : Candle) : Option (SellReason × ℚ) :=
  let rate := c.copen
  let cur := profitPercent cfg.fee p.open_rate rate
  if cur ≤ cfg.stoploss then some (SellReason.STOP_LOSS, rate)
  else if cfg.trailing_stop = true ∧ cfg.trailing_stop_positive < p.peak - cur then
    some (SellReason.TRAILING_STOP_LOSS, rate)
  else
    match roiValue cfg.minimal_roi ((j - p.open_index) * cfg.interval_min) with
    | some mroi =>
        if mroi ≤ cur then some (SellReason.ROI, rate)
        else if cfg.use_sell_signal = true ∧ prevSell cs j = true then
          some (SellReason.SELL_SIGNAL, rate)
        else none
    | none =>
        if cfg.use_sell_signal = true ∧ prevSell cs j = true then
          some (SellReason.SELL_SIGNAL, rate)
        else none

/-- Modelled from the spec: the close operation of the Position Tracker
(section 4.3) - build the immutable ClosedTrade record from a position, the
closing candle index, reason and rate. -/
def mkClosed (cfg : BTConfig) (p : OpenPosition) (j : Nat) (reason : SellReason)
    (rate : ℚ) (atEnd : Bool) : ClosedTrade :=
  let pp := profitPercent cfg.fee p.open_rate rate
  { pair := p.pair
    open_time := p.open_time
    close_time := candleDate cfg j
    open_rate := p.open_rate
    close_rate := rate
    open_index := p.open_index
    close_index := j
    trade_duration := (j - p.open_index) * cfg.interval_min
    profit_percent := pp
    profit_abs := pp * p.stake
    open_at_end := atEnd
    sell_reason := reason }

/-- A fresh position opened on candle `i` of pair `pn` at that candle's open
rate (section 4.5: entry executes at the next candle open after the signal
candle). -/
def mkOpen (cfg : BTConfig) (pn : String) (i : Nat) (ccur : Candle) : OpenPosition :=
  { pair := pn
    open_index := i
    open_time := candleDate cfg i
    open_rate := ccur.copen
    stake := cfg.stake_amount
    peak := 0 }

/-- Slot availability of the Position Tracker: true when the concurrency
limit is the unlimited sentinel or the open-position count is below it. -/
def slotsFree (cfg : BTConfig) (st : BTState) : Bool :=
  match cfg.max_open_trades with
  | none => true
  | some m => decide (st.openPos.length < m)

/-- Whether a position is already open for the pair. -/
def pairIsOpen (st : BTState) (pn : String) : Bool :=
  st.openPos.any (fun p => p.pair == pn)

/-- Modelled from the spec: the SCANNING to IN_TRADE transition of the
Backtest Driver (section 4.5) at fill candle `i` for one pair: the buy flag
of the signal candle i-1 must be true and its sell flag false (the
ambiguous-signal policy), the fill candle must exist and precede the final
candle of the window (a signal on the final candle has no next candle to
fill on, so it opens nothing), at most one position per pair unless
stacking, and the Position Tracker must grant a slot. -/
def tryOpenPair (cfg : BTConfig) (data : PairData) (i : Nat) (pn : String)
    (st : BTState) : BTState :=
  match (findPair data pn).get? (i - 1), (findPair data pn).get? i with
  | some cprev, some ccur =>
      if 1 ≤ i ∧ i < winLen data - 1 ∧ cprev.buy = true ∧ cprev.sell = false
          ∧ (cfg.position_stacking = true ∨ pairIsOpen st pn = false)
          ∧ slotsFree cfg st = true then
        { st with openPos := st.openPos ++ [mkOpen cfg pn i ccur] }
      else st
  | some _, none => st
  | none, _ => st

/-- Entry phase of one step: try to open a position for each pair in the
fixed input order. -/
def processEntries (cfg : BTConfig) (data : PairData) (i : Nat) :
    List String → BTState → BTState
  | [], st => st
  | pn :: rest, st => processEntries cfg data i rest (tryOpenPair cfg data i pn st)

/-- Advance one open position across candle `j`: positions opened on `j`
itself are not yet evaluated (the exit walk starts one candle after entry);
otherwise the Exit Rule Evaluator either closes the position or the
peak-profit tracker is updated. -/
def advancePos (cfg : BTConfig) (cs : List Candle) (j : Nat) (p : OpenPosition) :
    OpenPosition ⊕ ClosedTrade :=
  if p.open_index < j then
    match cs.get? j with
    | none => Sum.inl p
    | some c =>
        match exitSignal cfg cs j p c with
        | some (r, rate) => Sum.inr (mkClosed cfg p j r rate false)
        | none =>
            Sum.inl { p with peak := max p.peak (profitPercent cfg.fee p.open_rate c.copen) }
  else Sum.inl p

/-- Advance every open position across candle `j`, splitting the survivors
from the freshly closed trades. -/
def advanceAll (cfg : BTConfig) (data : PairData) (j : Nat) :
    List OpenPosition → List OpenPosition × List ClosedTrade
  | [] => ([], [])
  | p :: ps =>
      let rest := advanceAll cfg data j ps
      match advancePos cfg (findPair data p.pair) j p with
      | Sum.inl q => (q :: rest.1, rest.2)
      | Sum.inr t => (rest.1, t :: rest.2)

/-- Exit phase of one step: advance all open positions across candle `j` and
append the resulting closed trades to the result table. -/
def processExits (cfg : BTConfig) (data : PairData) (j : Nat) (st : BTState) :
    BTState :=
  let res := advanceAll cfg data j st.openPos
  { openPos := res.1, closed := st.closed ++ res.2 }

/-- One step of the driver at candle index `i`: entries are decided before
exits, so a slot freed on candle `i` only becomes available from candle
i+1 on (section 4.5, and Scenario D of section 8: a deferred buy signal
waits for a free slot). -/
def stepBT (cfg : BTConfig) (data : PairData) (i : Nat) (st : BTState) : BTState :=
  processExits cfg data i (processEntries cfg data i (data.map Prod.fst) st)

/-- Driver state after processing candles 1 up to `i` (candle 0 can never be
a fill candle: its signal candle would precede the window). -/
def runSteps (cfg : BTConfig) (data : PairData) : Nat → BTState
  | 0 => { openPos := [], closed := [] }
  | i + 1 => stepBT cfg data (i + 1) (runSteps cfg data i)

/-- Modelled from the spec: the end-of-window force close (section 4.4 step
6): every position still open is closed at the final candle close rate with
FORCE_SELL and open_at_end set. -/
def forceClose (cfg : BTConfig) (data : PairData) (st : BTState) :
    List ClosedTrade :=
  let last := winLen data - 1
  st.closed ++ st.openPos.filterMap (fun p =>
    ((findPair data p.pair).get? last).map
      (fun c => mkClosed cfg p last SellReason.FORCE_SELL c.cclose true))

/-- Modelled from the spec: the Backtest Driver event loop (section 4.5) -
the deterministic single pass over the evaluation window, followed by the
force close of surviving positions. -/
def backtest (cfg : BTConfig) (data : PairData) : List ClosedTrade :=
  forceClose cfg data (runSteps cfg data (winLen data - 1))

/-- Modelled from the spec: the run configuration ahead of setup (section
6): the stake amount is either a fixed number or the unlimited sentinel, on
top of the driver configuration. -/
structure RunConfig where
  stake_unlimited : Bool
  total_capital : ℚ
  bt : BTConfig
deriving DecidableEq, Repr

/-- Modelled from the spec: the configuration check performed ahead of any
run (sections 4.3 and 7): unlimited-stake mode without a finite
max_open_trades is a fatal ConfigError; otherwise the effective stake in
unlimited mode is the total capital divided across the allowed concurrent
slots (absent from src/, reconstructed from
test_setup_configuration_unlimited_stake_amount). -/
def setupConfiguration (rc : RunConfig) : Except String BTConfig :=
  if rc.stake_unlimited = true then
    match rc.bt.max_open_trades with
    | none => Except.error ("ConfigError: unlimited stake amount requires a finite max_open_trades")
    | some m => Except.ok { rc.bt with stake_amount := rc.total_capital / m }
  else Except.ok rc.bt

/-- Modelled from the spec: the full command - setup first, then the
simulation; a failed setup aborts before any backtest is executed
(section 7). -/
def startBacktest (rc : RunConfig) (data : PairData) :
    Except String (List ClosedTrade) :=
  match setupConfiguration rc with
  | Except.error e => Except.error e
  | Except.ok cfg => Except.ok (backtest cfg data)

/-- Outcome of a whole run: an optional user-facing terminal message plus
the (possibly empty) result table. -/
structure RunReport where
  message : Option String
  results : List ClosedTrade
deriving DecidableEq, Repr

/-- Modelled from the spec: the Timeframe Resolver interface (section 4.2):
the intersection window across pairs, none when no pair yields any usable
candle. -/
def getTimeframe (cfg : BTConfig) (data : PairData) : Option (Nat × Nat) :=
  if winLen data = 0 then none
  else some (candleDate cfg 0, candleDate cfg (winLen data - 1))

/-- Modelled from the spec: the top-level run (sections 4.2 and 7, and
test_backtesting_start_no_data): when no pair yields usable data or the
evaluation window has zero or negative length the run terminates by design
with a user-facing no-data message and an empty, valid result set - not an
exception; otherwise the simulation runs. -/
def startRun (cfg : BTConfig) (data : PairData) : Except String RunReport :=
  match getTimeframe cfg data with
  | none => Except.ok { message := some ("No data found. Terminating."), results := [] }
  | some (mind, maxd) =>
      if mind < maxd then Except.ok { message := none, results := backtest cfg data }
      else Except.ok { message := some ("No data found. Terminating."), results := [] }

/-- The string value of each sell reason, as serialized by the persistence
sink. -/
def sellReasonStr : SellReason → String
  | SellReason.ROI => "roi"
  | SellReason.STOP_LOSS => "stop_loss"
  | SellReason.TRAILING_STOP_LOSS => "trailing_stop_loss"
  | SellReason.SELL_SIGNAL => "sell_signal"
  | SellReason.FORCE_SELL => "force_sell"

/-- Modelled from the spec: one element of the persistence sink batch
(section 6): the 10-tuple (pair, profit_percent, open_epoch, close_epoch,
open_index, duration_minutes, open_rate, close_rate, open_at_end,
sell_reason_string), with open_at_end a boolean and the sell reason a
string. -/
structure BTRecord where
  pair : String
  profit_percent : ℚ
  open_epoch : Nat
  close_epoch : Nat
  open_index : Nat
  duration_minutes : Nat
  open_rate : ℚ
  close_rate : ℚ
  open_at_end : Bool
  sell_reason : String
deriving DecidableEq, Repr

/-- Serialization of one closed trade into the persistence-sink tuple. -/
def trade2tuple (t : ClosedTrade) : BTRecord :=
  { pair := t.pair
    profit_percent := t.profit_percent
    open_epoch := t.open_time
    close_epoch := t.close_time
    open_index := t.open_index
    duration_minutes := t.trade_duration
    open_rate := t.open_rate
    close_rate := t.close_rate
    open_at_end := t.open_at_end
    sell_reason := sellReasonStr t.sell_reason }

/-- JSON values, as far as the persistence sink format needs them. -/
inductive JVal where
  | jstr (s : String)
  | jint (n : Int)
  | jnum (q : ℚ)
  | jbool (b : Bool)
  | jarr (xs : List JVal)
deriving Repr

/-- JSON encoding of one record tuple: a 10-element array. -/
def encodeRecord (r : BTRecord) : JVal :=
  JVal.jarr [JVal.jstr r.pair, JVal.jnum r.profit_percent,
    JVal.jint r.open_epoch, JVal.jint r.close_epoch, JVal.jint r.open_index,
    JVal.jint r.duration_minutes, JVal.jnum r.open_rate, JVal.jnum r.close_rate,
    JVal.jbool r.open_at_end, JVal.jstr r.sell_reason]

/-- JSON decoding of one record tuple. -/
def decodeRecord : JVal → Option BTRecord
  | JVal.jarr [JVal.jstr p, JVal.jnum pp, JVal.jint oe, JVal.jint ce,
      JVal.jint oi, JVal.jint dm, JVal.jnum orr, JVal.jnum cr,
      JVal.jbool oae, JVal.jstr sr] =>
      if 0 ≤ oe ∧ 0 ≤ ce ∧ 0 ≤ oi ∧ 0 ≤ dm then
        some { pair := p, profit_percent := pp, open_epoch := oe.toNat,
               close_epoch := ce.toNat, open_index := oi.toNat,
               duration_minutes := dm.toNat, open_rate := orr, close_rate := cr,
               open_at_end := oae, sell_reason := sr }
      else none
  | _ => none

/-- JSON decoding of a record batch. -/
def decodeList : List JVal → Option (List BTRecord)
  | [] => some []
  | v :: vs =>
      match decodeRecord v, decodeList vs with
      | some r, some rs => some (r :: rs)
      | _, _ => none

/-- JSON decoding of the serialized batch array. -/
def decodeArray : JVal → Option (List BTRecord)
  | JVal.jarr xs => decodeList xs
  | _ => none

/-- Modelled from the spec: the persistence export (store_records of
section 6, the _store_backtest_result method exercised by
test_backtest_record, absent from src/): a non-empty batch of closed trades
becomes exactly one write of one JSON array of record tuples to the named
file; an empty batch writes nothing.  The sink is modelled as the list of
(filename, value) writes performed. -/
def store_backtest_result (filename : String) (trades : List ClosedTrade) :
    List (String × JVal) :=
  if trades.isEmpty then []
  else [(filename, JVal.jarr ((trades.map trade2tuple).map encodeRecord))]

/-! ## StoplossGuard, embedded from
src/freqtrade/plugins/protections/stoploss_guard.py -/

/-- A closed-trade row of the persistence layer as the stoploss guard reads
it (the Trade model is outside src/; only the columns the guard filters on
are modelled): pair, open flag, close date (epoch minutes), sell reason and
close profit, the latter two nullable. -/
structure DBTrade where
  pair : String
  is_open : Bool
  close_date : Int
  sell_reason : Option String
  close_profit : Option ℚ
deriving DecidableEq, Repr

/-- Configuration of StoplossGuard: lookback_period, trade_limit and
stop_duration, all in minutes (defaults 60, 10, 60). -/
structure StoplossGuardCfg where
  lookback_period : Nat
  trade_limit : Nat
  stop_duration : Nat
deriving DecidableEq, Repr

/-- Whether the close_profit column is present and negative (a NULL
close_profit matches no comparison, like in SQL). -/
def closeProfitNeg (t : DBTrade) : Bool :=
  match t.close_profit with
  | some v => decide (v < 0)
  | none => false

/-- The optional pair restriction of the filter. -/
def pairMatches (pair : Option String) (t : DBTrade) : Bool :=
  match pair with
  | some pn => t.pair == pn
  | none => true

/-- The filter of StoplossGuard._stoploss_guard over one trade row: closed,
close_date after look_back_until, sell_reason stop_loss or
trailing_stop_loss with negative close_profit, and the pair restriction. -/
def stoplossGuardFilter (look_back_until : Int) (pair : Option String)
    (t : DBTrade) : Bool :=
  (!t.is_open) && decide (look_back_until < t.close_date)
    && (t.sell_reason == some ("stop_loss")
        || (t.sell_reason == some ("trailing_stop_loss") && closeProfitNeg t))
    && pairMatches pair t

/-- Modelled from the spec: IProtection.calculate_lock_end is outside src/;
claim C10 does not constrain the lock end, so it is modelled as the latest
close date among the offending trades plus the stop duration. -/
def calculate_lock_end (trades : List DBTrade) (stop_duration : Nat) : Int :=
  (trades.foldl (fun acc t => max acc t.close_date) 0) + stop_duration

/-- StoplossGuard._stoploss_guard: evaluate recent trades; lock (globally or
for one pair) when strictly more than trade_limit qualifying stoplosses
closed within the lookback period. -/
def stoploss_guard (cfg : StoplossGuardCfg) (allTrades : List DBTrade)
    (date_now : Int) (pair : Option String) : Bool × Option Int × Option String :=
  let look_back_until := date_now - cfg.lookback_period
  let trades := allTrades.filter (stoplossGuardFilter look_back_until pair)
  if cfg.trade_limit < trades.length then
    (true, some (calculate_lock_end trades cfg.stop_duration),
     some ("stoplosses, locking"))
  else (false, none, none)

/-- StoplossGuard.global_stop: lock evaluation across all pairs. -/
def global_stop (cfg : StoplossGuardCfg) (allTrades : List DBTrade)
    (date_now : Int) : Bool × Option Int × Option String :=
  stoploss_guard cfg allTrades date_now none

/-- StoplossGuard.stop_per_pair: lock evaluation for one pair. -/
def stop_per_pair (cfg : StoplossGuardCfg) (allTrades : List DBTrade)
    (pair : String) (date_now : Int) : Bool × Option Int × Option String :=
  stoploss_guard cfg allTrades date_now (some pair)

/-! ## Invariant predicates -/

/-- A legitimate entry: index at least 1, the signal candle (one before the
fill candle) has the buy flag set and the sell flag clear, and the fill rate
is the fill candle open. -/
def entryOk (data : PairData) (pn : String) (oi : Nat) (rate : ℚ) : Prop :=
  1 ≤ oi ∧ ∃ cprev ccur,
    (findPair data pn).get? (oi - 1) = some cprev ∧
    (findPair data pn).get? oi = some ccur ∧
    cprev.buy = true ∧ cprev.sell = false ∧ rate = ccur.copen

/-- Well-formedness of an open position after step `i`. -/
def posOk (cfg : BTConfig) (data : PairData) (i : Nat) (p : OpenPosition) : Prop :=
  entryOk data p.pair p.open_index p.open_rate ∧
  p.open_index ≤ i ∧ p.open_index < winLen data - 1 ∧
  p.open_time = candleDate cfg p.open_index

/-- The per-trade facts shared by signal-closed and force-closed trades. -/
def tradeCore (cfg : BTConfig) (data : PairData) (t : ClosedTrade) : Prop :=
  entryOk data t.pair t.open_index t.open_rate ∧
  t.open_index < t.close_index ∧
  t.open_index < winLen data - 1 ∧
  t.open_time = candleDate cfg t.open_index ∧
  t.close_time = candleDate cfg t.close_index ∧
  t.trade_duration = (t.close_index - t.open_index) * cfg.interval_min

/-- Well-formedness of a signal-closed trade after step `i`. -/
def closedOk (cfg : BTConfig) (data : PairData) (i : Nat) (t : ClosedTrade) : Prop :=
  tradeCore cfg data t ∧ t.close_index ≤ i ∧
  t.open_at_end = false ∧ t.sell_reason ≠ SellReason.FORCE_SELL

/-- Well-formedness of a trade in the final backtest result. -/
def tradeFinal (cfg : BTConfig) (data : PairData) (t : ClosedTrade) : Prop :=
  tradeCore cfg data t ∧ t.close_index ≤ winLen data - 1 ∧
  (t.open_at_end = true ↔ t.sell_reason = SellReason.FORCE_SELL) ∧
  (t.open_at_end = true → t.close_index = winLen data - 1 ∧
    ∃ c, (findPair data t.pair).get? (winLen data - 1) = some c ∧
      t.close_rate = c.cclose)

/-- Whether the index interval of a closed trade covers index `k`. -/
def coversIdx (k : Nat) (t : ClosedTrade) : Bool :=
  decide (t.open_index ≤ k ∧ k ≤ t.close_index)

/-- Whether the time interval of a closed trade covers timestamp `ts`. -/
def coversTime (ts : Nat) (t : ClosedTrade) : Bool :=
  decide (t.open_time ≤ ts ∧ ts ≤ t.close_time)

/-- Whether an open position was opened on or before index `k`. -/
def openLE (k : Nat) (p : OpenPosition) : Bool :=
  decide (p.open_index ≤ k)

/-- The concurrency account at index `k`: closed trades covering `k` plus
open positions opened no later than `k`. -/
def cntAt (k : Nat) (st : BTState) : Nat :=
  (st.closed.filter (coversIdx k)).length + (st.openPos.filter (openLE k)).length

/-- The concurrency invariant carried through the event loop when the
concurrency limit is the finite `m`. -/
structure CntInv (m i : Nat) (st : BTState) : Prop where
  lenLe : st.openPos.length ≤ m
  closedLe : ∀ t ∈ st.closed, t.close_index ≤ i
  cntLe : ∀ k, cntAt k st ≤ m

/-! ## Concrete fixtures for witness runs -/

/-- A flat candle (all prices 1) with the given signal flags. -/
def flatCandle (b s : Bool) : Candle :=
  { copen := 1, chigh := 1, clow := 1, cclose := 1, volume := 0, buy := b, sell := s }

/-- A small concrete driver configuration. -/
def cfg0 : BTConfig :=
  { stoploss := -2, minimal_roi := [], use_sell_signal := true,
    trailing_stop := false, trailing_stop_positive := 0, fee := 0,
    max_open_trades := some 1, position_stacking := false,
    interval_min := 1, start_time := 0, stake_amount := 1 }

/-- One pair, five candles: a buy signal on candle 0 (sold by signal), a
buy signal on candle 2 (left open, force-closed at window end). -/
def data0 : PairData :=
  [("ETH/BTC", [flatCandle true false, flatCandle false true,
    flatCandle true false, flatCandle false false, flatCandle false false])]

/-- One pair whose candles all carry both the buy and the sell flag. -/
def dataClash : PairData :=
  [("ETH/BTC", [flatCandle true true, flatCandle true true, flatCandle true true])]

/-- The first trade of the run of cfg0 over data0 (closed by sell signal). -/
def t1w : ClosedTrade :=
  { pair := "ETH/BTC", open_time := 1, close_time := 2, open_rate := 1,
    close_rate := 1, open_index := 1, close_index := 2, trade_duration := 1,
    profit_percent := 0, profit_abs := 0, open_at_end := false,
    sell_reason := SellReason.SELL_SIGNAL }

/-- The second trade of the run of cfg0 over data0 (force-closed). -/
def t2w : ClosedTrade :=
  { pair := "ETH/BTC", open_time := 3, close_time := 4, open_rate := 1,
    close_rate := 1, open_index := 3, close_index := 4, trade_duration := 1,
    profit_percent := 0, profit_abs := 0, open_at_end := true,
    sell_reason := SellReason.FORCE_SELL }

/-- An unlimited-stake run configuration without a finite concurrency
limit. -/
def rcU : RunConfig :=
  { stake_unlimited := true, total_capital := 10,
    bt := { cfg0 with max_open_trades := none } }

/-- A concrete stoploss-guard configuration with trade limit 2. -/
def gCfg : StoplossGuardCfg :=
  { lookback_period := 60, trade_limit := 2, stop_duration := 60 }

/-- Three qualifying stoploss trades inside the lookback window. -/
def gTrades : List DBTrade :=
  [{ pair := "ETH/BTC", is_open := false, close_date := 990,
     sell_reason := some ("stop_loss"), close_profit := some (-1) },
   { pair := "LTC/BTC", is_open := false, close_date := 995,
     sell_reason := some ("stop_loss"), close_profit := some (-1) },
   { pair := "XRP/BTC", is_open := false, close_date := 999,
     sell_reason := some ("trailing_stop_loss"), close_profit := some (-1) }]

/-! ## Structural lemmas -/

theorem filter_le_of_imp {α : Type} {P Q : α → Bool} :
    ∀ l : List α, (∀ a ∈ l, P a = true → Q a = true) →
      (l.filter P).length ≤ (l.filter Q).length := by
  intro l
  induction l with
  | nil => intro _; simp
  | cons a t ih =>
    intro h
    have ht : (t.filter P).length ≤ (t.filter Q).length :=
      ih fun b hb => h b (List.mem_cons_of_mem a hb)
    simp only [List.filter_cons]
    cases hP : P a with
    | true =>
      rw [h a (List.mem_cons_self a t) hP]
      simpa using ht
    | false =>
      cases hQ : Q a with
      | true => simpa using Nat.le_succ_of_le ht
      | false => simpa using ht

theorem tryOpenPair_spec (cfg : BTConfig) (data : PairData) (i : Nat) (pn : String)
    (st : BTState) :
    tryOpenPair cfg data i pn st = st ∨
    ∃ cprev ccur,
      (findPair data pn).get? (i - 1) = some cprev ∧
      (findPair data pn).get? i = some ccur ∧
      1 ≤ i ∧ i < winLen data - 1 ∧ cprev.buy = true ∧ cprev.sell = false ∧
      slotsFree cfg st = true ∧
      tryOpenPair cfg data i pn st =
        { st with openPos := st.openPos ++ [mkOpen cfg pn i ccur] } := by
  unfold tryOpenPair
  cases h1 : (findPair data pn).get? (i - 1) with
  | none => left; rfl
  | some cprev =>
    cases h2 : (findPair data pn).get? i with
    | none => left; rfl
    | some ccur =>
      by_cases hc : 1 ≤ i ∧ i < winLen data - 1 ∧ cprev.buy = true ∧ cprev.sell = false
          ∧ (cfg.position_stacking = true ∨ pairIsOpen st pn = false)
          ∧ slotsFree cfg st = true
      · right
        exact ⟨cprev, ccur, rfl, rfl, hc.1, hc.2.1, hc.2.2.1, hc.2.2.2.1,
          hc.2.2.2.2.2, by simp [hc]⟩
      · left; simp [hc]

theorem processEntries_closed (cfg : BTConfig) (data : PairData) (i : Nat) :
    ∀ (pns : List String) (st : BTState),
      (processEntries cfg data i pns st).closed = st.closed := by
  intro pns
  induction pns with
  | nil => intro st; rfl
  | cons pn rest ih =>
    intro st
    rw [processEntries, ih]
    rcases tryOpenPair_spec cfg data i pn st with he | ⟨_, _, _, _, _, _, _, _, _, he⟩
    · rw [he]
    · rw [he]

theorem exitSignal_reason (cfg : BTConfig) (cs : List Candle) (j : Nat)
    (p : OpenPosition) (c : Candle) (r : SellReason) (rate : ℚ)
    (h : exitSignal cfg cs j p c = some (r, rate)) :
    r ≠ SellReason.FORCE_SELL := by
  unfold exitSignal at h
  simp only [] at h
  split at h
  · injection h with h; cases h; simp
  · split at h
    · injection h with h; cases h; simp
    · split at h
      · split at h
        · injection h with h; cases h; simp
        · split at h
          · injection h with h; cases h; simp
          · exact absurd h (by simp)
      · split at h
        · injection h with h; cases h; simp
        · exact absurd h (by simp)

theorem advancePos_inl (cfg : BTConfig) (cs : List Candle) (j : Nat)
    (p q : OpenPosition) (h : advancePos cfg cs j p = Sum.inl q) :
    q.pair = p.pair ∧ q.open_index = p.open_index ∧ q.open_time = p.open_time ∧
    q.open_rate = p.open_rate := by
  unfold advancePos at h
  split at h
  · split at h
    · injection h with h; cases h; exact ⟨rfl, rfl, rfl, rfl⟩
    · split at h
      · exact absurd h (by simp)
      · injection h with h; cases h; exact ⟨rfl, rfl, rfl, rfl⟩
  · injection h with h; cases h; exact ⟨rfl, rfl, rfl, rfl⟩

theorem advancePos_inr (cfg : BTConfig) (cs : List Candle) (j : Nat)
    (p : OpenPosition) (t : ClosedTrade) (h : advancePos cfg cs j p = Sum.inr t) :
    p.open_index < j ∧ ∃ r rate, r ≠ SellReason.FORCE_SELL ∧
      t = mkClosed cfg p j r rate false := by
  unfold advancePos at h
  split at h
  · rename_i hj
    split at h
    · exact absurd h (by simp)
    · rename_i c hc
      split at h
      · rename_i r0 rate0 hr
        injection h with h
        exact ⟨hj, r0, rate0, exitSignal_reason cfg cs j p c r0 rate0 hr, h.symm⟩
      · exact absurd h (by simp)
  · exact absurd h (by simp)

theorem advanceAll_cons_inl (cfg : BTConfig) (data : PairData) (j : Nat)
    (p : OpenPosition) (ps : List OpenPosition) (q : OpenPosition)
    (h : advancePos cfg (findPair data p.pair) j p = Sum.inl q) :
    advanceAll cfg data j (p :: ps) =
      (q :: (advanceAll cfg data j ps).1, (advanceAll cfg data j ps).2) := by
  rw [advanceAll, h]

theorem advanceAll_cons_inr (cfg : BTConfig) (data : PairData) (j : Nat)
    (p : OpenPosition) (ps : List OpenPosition) (t : ClosedTrade)
    (h : advancePos cfg (findPair data p.pair) j p = Sum.inr t) :
    advanceAll cfg data j (p :: ps) =
      ((advanceAll cfg data j ps).1, t :: (advanceAll cfg data j ps).2) := by
  rw [advanceAll, h]

theorem advanceAll_inv (cfg : BTConfig) (data : PairData) (j : Nat) :
    ∀ ps : List OpenPosition,
      (advanceAll cfg data j ps).1.length ≤ ps.length ∧
      (∀ k, ((advanceAll cfg data j ps).2.filter (coversIdx k)).length +
              ((advanceAll cfg data j ps).1.filter (openLE k)).length
            ≤ (ps.filter (openLE k)).length) := by
  intro ps
  induction ps with
  | nil => exact ⟨Nat.le_refl _, fun k => by simp [advanceAll]⟩
  | cons p rest ih =>
    cases hadv : advancePos cfg (findPair data p.pair) j p with
    | inl q =>
      obtain ⟨-, hoi, -, -⟩ := advancePos_inl cfg (findPair data p.pair) j p q hadv
      rw [advanceAll_cons_inl cfg data j p rest q hadv]
      constructor
      · simpa using Nat.succ_le_succ ih.1
      · intro k
        have hq : openLE k q = openLE k p := by simp [openLE, hoi]
        simp only [List.filter_cons, hq]
        cases hP : openLE k p with
        | true =>
          simp only [hP, if_true]
          have := ih.2 k
          simp only [List.length_cons]
          omega
        | false =>
          simp only [hP, Bool.false_eq_true, if_false]
          exact ih.2 k
    | inr t =>
      obtain ⟨hj, r, rate, -, ht⟩ := advancePos_inr cfg (findPair data p.pair) j p t hadv
      have hoi : t.open_index = p.open_index := by rw [ht]; rfl
      rw [advanceAll_cons_inr cfg data j p rest t hadv]
      constructor
      · exact Nat.le_succ_of_le ih.1
      · intro k
        simp only [List.filter_cons]
        cases hP : coversIdx k t with
        | true =>
          have hab : t.open_index ≤ k ∧ k ≤ t.close_index := by
            simpa [coversIdx] using hP
          have hop : openLE k p = true := by
            simp only [openLE, decide_eq_true_eq]
            omega
          simp only [hP, hop, if_true, List.length_cons]
          have := ih.2 k
          omega
        | false =>
          cases hQ : openLE k p with
          | true =>
            simp only [hP, hQ, Bool.false_eq_true, if_false, if_true, List.length_cons]
            have := ih.2 k
            omega
          | false =>
            simp only [hP, hQ, Bool.false_eq_true, if_false]
            exact ih.2 k

theorem cntInv_tryOpen {cfg : BTConfig} {data : PairData} {m i j : Nat}
    {pn : String} {st : BTState} (hm : cfg.max_open_trades = some m)
    (hij : i < j) (h : CntInv m i st) :
    CntInv m i (tryOpenPair cfg data j pn st) := by
  rcases tryOpenPair_spec cfg data j pn st with he |
    ⟨cprev, ccur, h1, h2, h1j, hjlast, hb, hs, hfree, he⟩
  · rw [he]; exact h
  · rw [he]
    have hlen : st.openPos.length < m := by
      unfold slotsFree at hfree
      rw [hm] at hfree
      simpa using hfree
    refine ⟨by simpa using hlen, h.closedLe, ?_⟩
    intro k
    show (st.closed.filter (coversIdx k)).length
        + ((st.openPos ++ [mkOpen cfg pn j ccur]).filter (openLE k)).length ≤ m
    rw [List.filter_append, List.length_append]
    by_cases hk : j ≤ k
    · have hclosed0 : (st.closed.filter (coversIdx k)).length = 0 := by
        rw [List.length_eq_zero, List.filter_eq_nil_iff]
        intro t ht
        have hci := h.closedLe t ht
        simp only [coversIdx, decide_eq_true_eq, not_and]
        intro _
        omega
      have hnew : ([mkOpen cfg pn j ccur].filter (openLE k)).length ≤ 1 :=
        Nat.le_trans (List.length_filter_le _ _) (by simp)
      have hold : (st.openPos.filter (openLE k)).length ≤ st.openPos.length :=
        List.length_filter_le _ _
      omega
    · have hfalse : openLE k (mkOpen cfg pn j ccur) = false := decide_eq_false hk
      have hnew : ([mkOpen cfg pn j ccur].filter (openLE k)).length = 0 := by
        simp [hfalse]
      have := h.cntLe k
      unfold cntAt at this
      omega

theorem cntInv_entries {cfg : BTConfig} {data : PairData} {m i j : Nat}
    (hm : cfg.max_open_trades = some m) (hij : i < j) :
    ∀ (pns : List String) (st : BTState), CntInv m i st →
      CntInv m i (processEntries cfg data j pns st) := by
  intro pns
  induction pns with
  | nil => intro st h; exact h
  | cons pn rest ih =>
    intro st h
    rw [processEntries]
    exact ih _ (cntInv_tryOpen hm hij h)

theorem cntInv_exits {cfg : BTConfig} {data : PairData} {m i j : Nat}
    {st : BTState} (hij : i ≤ j) (h : CntInv m i st) :
    CntInv m j (processExits cfg data j st) := by
  have hinv := advanceAll_inv cfg data j st.openPos
  have hall : ∀ t ∈ (advanceAll cfg data j st.openPos).2, t.close_index = j := by
    clear hinv
    induction st.openPos with
    | nil => intro t ht; simp [advanceAll] at ht
    | cons p rest ih =>
      intro t ht
      cases hadv : advancePos cfg (findPair data p.pair) j p with
      | inl q =>
        rw [advanceAll_cons_inl cfg data j p rest q hadv] at ht
        exact ih t ht
      | inr u =>
        rw [advanceAll_cons_inr cfg data j p rest u hadv] at ht
        rcases List.mem_cons.mp ht with he | ht
        · obtain ⟨-, r, rate, -, hu⟩ := advancePos_inr cfg (findPair data p.pair) j p u hadv
          rw [he, hu]
          rfl
        · exact ih t ht
  refine ⟨?_, ?_, ?_⟩
  · calc (processExits cfg data j st).openPos.length
        = (advanceAll cfg data j st.openPos).1.length := rfl
      _ ≤ st.openPos.length := hinv.1
      _ ≤ m := h.lenLe
  · intro t ht
    have : t ∈ st.closed ++ (advanceAll cfg data j st.openPos).2 := ht
    rcases List.mem_append.mp this with hl | hr
    · exact Nat.le_trans (h.closedLe t hl) hij
    · exact Nat.le_of_eq (hall t hr)
  · intro k
    have h2 := hinv.2 k
    have h0 := h.cntLe k
    unfold cntAt at h0 ⊢
    have : (processExits cfg data j st).closed
        = st.closed ++ (advanceAll cfg data j st.openPos).2 := rfl
    rw [this]
    simp only [List.filter_append, List.length_append]
    have : (processExits cfg data j st).openPos
        = (advanceAll cfg data j st.openPos).1 := rfl
    rw [this]
    omega

theorem cntInv_runSteps {cfg : BTConfig} {data : PairData} {m : Nat}
    (hm : cfg.max_open_trades = some m) :
    ∀ i, CntInv m i (runSteps cfg data i) := by
  intro i
  induction i with
  | zero =>
    refine ⟨?_, ?_, ?_⟩
    · simp [runSteps]
    · intro t ht; simp [runSteps] at ht
    · intro k; simp [runSteps, cntAt]
  | succ i ih =>
    rw [runSteps]
    exact cntInv_exits (Nat.le_succ i)
      (cntInv_entries hm (Nat.lt_succ_self i) _ _ ih)

theorem optmap_some {α β : Type} (f : α → β) (a : α) :
    Option.map f (some a) = some (f a) := rfl

theorem optmap_none {α β : Type} (f : α → β) :
    Option.map f (none : Option α) = none := rfl

theorem forceClose_cnt (cfg : BTConfig) (data : PairData) (k : Nat) :
    ∀ ps : List OpenPosition,
      ((ps.filterMap (fun p =>
          ((findPair data p.pair).get? (winLen data - 1)).map
            (fun c => mkClosed cfg p (winLen data - 1) SellReason.FORCE_SELL
              c.cclose true))).filter (coversIdx k)).length
        ≤ (ps.filter (openLE k)).length := by
  intro ps
  induction ps with
  | nil => simp
  | cons p rest ih =>
    cases hg : (findPair data p.pair).get? (winLen data - 1) with
    | none =>
      simp only [List.filterMap_cons, hg, optmap_none]
      rw [List.filter_cons]
      cases hQ : openLE k p with
      | true =>
        simp only [hQ, if_true, List.length_cons]
        omega
      | false =>
        simp only [hQ, Bool.false_eq_true, if_false]
        exact ih
    | some c =>
      simp only [List.filterMap_cons, hg, optmap_some]
      rw [List.filter_cons, List.filter_cons]
      cases hP : coversIdx k (mkClosed cfg p (winLen data - 1)
          SellReason.FORCE_SELL c.cclose true) with
      | true =>
        have hab : p.open_index ≤ k := by
          have h2 : (mkClosed cfg p (winLen data - 1) SellReason.FORCE_SELL
              c.cclose true).open_index ≤ k ∧
              k ≤ (mkClosed cfg p (winLen data - 1) SellReason.FORCE_SELL
                c.cclose true).close_index := by
            simpa [coversIdx] using hP
          exact h2.1
        have hop : openLE k p = true := decide_eq_true hab
        simp only [hP, hop, if_true, List.length_cons]
        omega
      | false =>
        cases hQ : openLE k p with
        | true =>
          simp only [hP, hQ, Bool.false_eq_true, if_false, if_true,
            List.length_cons]
          omega
        | false =>
          simp only [hP, hQ, Bool.false_eq_true, if_false]
          exact ih

theorem backtest_coversIdx {cfg : BTConfig} {data : PairData} {m : Nat}
    (hm : cfg.max_open_trades = some m) (k : Nat) :
    ((backtest cfg data).filter (coversIdx k)).length ≤ m := by
  have hinv : CntInv m (winLen data - 1) (runSteps cfg data (winLen data - 1)) :=
    cntInv_runSteps hm (winLen data - 1)
  set st := runSteps cfg data (winLen data - 1) with hst
  have hfc : backtest cfg data = st.closed ++ st.openPos.filterMap (fun p =>
      ((findPair data p.pair).get? (winLen data - 1)).map
        (fun c => mkClosed cfg p (winLen data - 1) SellReason.FORCE_SELL
          c.cclose true)) := rfl
  rw [hfc]
  simp only [List.filter_append, List.length_append]
  have h1 := forceClose_cnt cfg data k st.openPos
  have h2 := hinv.cntLe k
  unfold cntAt at h2
  omega

theorem posOk_mono {cfg : BTConfig} {data : PairData} {i i2 : Nat}
    {p : OpenPosition} (h : i ≤ i2) (hp : posOk cfg data i p) :
    posOk cfg data i2 p :=
  ⟨hp.1, Nat.le_trans hp.2.1 h, hp.2.2.1, hp.2.2.2⟩

theorem closedOk_mono {cfg : BTConfig} {data : PairData} {i i2 : Nat}
    {t : ClosedTrade} (h : i ≤ i2) (ht : closedOk cfg data i t) :
    closedOk cfg data i2 t :=
  ⟨ht.1, Nat.le_trans ht.2.1 h, ht.2.2⟩

theorem goodSt_tryOpen {cfg : BTConfig} {data : PairData} {j : Nat}
    {pn : String} {st : BTState}
    (hp : ∀ p ∈ st.openPos, posOk cfg data j p) :
    ∀ p ∈ (tryOpenPair cfg data j pn st).openPos, posOk cfg data j p := by
  rcases tryOpenPair_spec cfg data j pn st with he |
    ⟨cprev, ccur, h1, h2, h1j, hjlast, hb, hs, -, he⟩
  · rw [he]; exact hp
  · rw [he]
    intro p hmem
    rcases List.mem_append.mp hmem with hold | hnew
    · exact hp p hold
    · have hpe : p = mkOpen cfg pn j ccur := by simpa using hnew
      subst hpe
      exact ⟨⟨h1j, cprev, ccur, h1, h2, hb, hs, rfl⟩, Nat.le_refl j, hjlast, rfl⟩

theorem goodSt_entries {cfg : BTConfig} {data : PairData} {j : Nat} :
    ∀ (pns : List String) (st : BTState),
      (∀ p ∈ st.openPos, posOk cfg data j p) →
      ∀ p ∈ (processEntries cfg data j pns st).openPos, posOk cfg data j p := by
  intro pns
  induction pns with
  | nil => intro st h; exact h
  | cons pn rest ih =>
    intro st h
    rw [processEntries]
    exact ih _ (goodSt_tryOpen h)

theorem goodSt_advanceAll {cfg : BTConfig} {data : PairData} {j : Nat} :
    ∀ ps : List OpenPosition, (∀ p ∈ ps, posOk cfg data j p) →
      (∀ q ∈ (advanceAll cfg data j ps).1, posOk cfg data j q) ∧
      (∀ t ∈ (advanceAll cfg data j ps).2, closedOk cfg data j t) := by
  intro ps
  induction ps with
  | nil =>
    intro _
    exact ⟨fun q hq => by simp [advanceAll] at hq,
           fun t ht => by simp [advanceAll] at ht⟩
  | cons p rest ih =>
    intro h
    have hrest := ih fun q hq => h q (List.mem_cons_of_mem p hq)
    have hphead := h p (List.mem_cons_self p rest)
    cases hadv : advancePos cfg (findPair data p.pair) j p with
    | inl q =>
      rw [advanceAll_cons_inl cfg data j p rest q hadv]
      obtain ⟨hpair, hoi, hot, hor⟩ :=
        advancePos_inl cfg (findPair data p.pair) j p q hadv
      refine ⟨?_, hrest.2⟩
      intro q2 hq2
      rcases List.mem_cons.mp hq2 with he | hq2
      · subst he
        refine ⟨?_, ?_, ?_, ?_⟩
        · rw [hpair, hoi, hor]; exact hphead.1
        · rw [hoi]; exact hphead.2.1
        · rw [hoi]; exact hphead.2.2.1
        · rw [hoi, hot]; exact hphead.2.2.2
      · exact hrest.1 q2 hq2
    | inr t =>
      rw [advanceAll_cons_inr cfg data j p rest t hadv]
      obtain ⟨hj, r, rate, hrr, ht⟩ :=
        advancePos_inr cfg (findPair data p.pair) j p t hadv
      refine ⟨hrest.1, ?_⟩
      intro t2 ht2
      rcases List.mem_cons.mp ht2 with he | ht2
      · subst he
        subst ht
        refine ⟨⟨?_, ?_, ?_, ?_, ?_, ?_⟩, ?_, ?_, ?_⟩
        · exact hphead.1
        · exact hj
        · exact hphead.2.2.1
        · exact hphead.2.2.2
        · rfl
        · rfl
        · exact Nat.le_refl j
        · rfl
        · exact hrr
      · exact hrest.2 t2 ht2

theorem goodSt_runSteps (cfg : BTConfig) (data : PairData) :
    ∀ i, (∀ p ∈ (runSteps cfg data i).openPos, posOk cfg data i p) ∧
         (∀ t ∈ (runSteps cfg data i).closed, closedOk cfg data i t) := by
  intro i
  induction i with
  | zero =>
    exact ⟨fun p hp => by simp [runSteps] at hp,
           fun t ht => by simp [runSteps] at ht⟩
  | succ i ih =>
    rw [runSteps]
    set st1 := processEntries cfg data (i + 1) (data.map Prod.fst)
      (runSteps cfg data i) with hst1
    have hp1 : ∀ p ∈ st1.openPos, posOk cfg data (i + 1) p :=
      goodSt_entries _ _ (fun p hp => posOk_mono (Nat.le_succ i) (ih.1 p hp))
    have hc1 : ∀ t ∈ st1.closed, closedOk cfg data (i + 1) t := by
      rw [hst1, processEntries_closed]
      exact fun t ht => closedOk_mono (Nat.le_succ i) (ih.2 t ht)
    have hadv := goodSt_advanceAll st1.openPos hp1
    constructor
    · intro p hp
      exact hadv.1 p hp
    · intro t ht
      rcases List.mem_append.mp ht with hl | hr
      · exact hc1 t hl
      · exact hadv.2 t hr

theorem backtest_good (cfg : BTConfig) (data : PairData) :
    ∀ t ∈ backtest cfg data, tradeFinal cfg data t := by
  intro t ht
  have hst := goodSt_runSteps cfg data (winLen data - 1)
  have hm : t ∈ (runSteps cfg data (winLen data - 1)).closed ++
      (runSteps cfg data (winLen data - 1)).openPos.filterMap (fun p =>
        ((findPair data p.pair).get? (winLen data - 1)).map
          (fun c => mkClosed cfg p (winLen data - 1) SellReason.FORCE_SELL
            c.cclose true)) := ht
  rcases List.mem_append.mp hm with hl | hr
  · have hok := hst.2 t hl
    refine ⟨hok.1, hok.2.1, ?_, ?_⟩
    · rw [hok.2.2.1]
      constructor
      · intro hcontra; exact absurd hcontra (by simp)
      · intro hcontra; exact absurd hcontra hok.2.2.2
    · rw [hok.2.2.1]
      intro hcontra
      exact absurd hcontra (by simp)
  · rw [List.mem_filterMap] at hr
    obtain ⟨p, hp, hfp⟩ := hr
    have hpok := hst.1 p hp
    cases hg : (findPair data p.pair).get? (winLen data - 1) with
    | none => rw [hg] at hfp; exact absurd hfp (by simp)
    | some c =>
      rw [hg] at hfp
      have hte : t = mkClosed cfg p (winLen data - 1) SellReason.FORCE_SELL
          c.cclose true := by
        have := hfp
        simp only [optmap_some] at this
        exact (Option.some_inj.mp this).symm
      subst hte
      refine ⟨⟨hpok.1, hpok.2.2.1, hpok.2.2.1, hpok.2.2.2, rfl, rfl⟩,
        Nat.le_refl _, ?_, ?_⟩
      · constructor
        · intro _; rfl
        · intro _; rfl
      · intro _
        refine ⟨rfl, c, ?_, rfl⟩
        exact hg

theorem findPair_sub (data : PairData) (pn : String) (c : Candle) (k : Nat)
    (h : (findPair data pn).get? k = some c) : ∃ pr ∈ data, c ∈ pr.2 := by
  unfold findPair at h
  cases hf : data.find? (fun pr => pr.1 == pn) with
  | none => rw [hf] at h; simp at h
  | some pr =>
    rw [hf] at h
    exact ⟨pr, List.mem_of_find?_eq_some hf, List.get?_mem h⟩

theorem runSteps_empty (cfg : BTConfig) (data : PairData)
    (hbs : ∀ pr ∈ data, ∀ c ∈ pr.2, c.buy = true → c.sell = true) :
    ∀ i, runSteps cfg data i = { openPos := [], closed := [] } := by
  have htry : ∀ (j : Nat) (pn : String) (st : BTState),
      tryOpenPair cfg data j pn st = st := by
    intro j pn st
    rcases tryOpenPair_spec cfg data j pn st with he |
      ⟨cprev, ccur, h1, h2, -, -, hb, hs, -, -⟩
    · exact he
    · exfalso
      obtain ⟨pr, hpr, hc⟩ := findPair_sub data pn cprev (j - 1) h1
      have := hbs pr hpr cprev hc hb
      rw [this] at hs
      exact absurd hs (by simp)
  have hent : ∀ (j : Nat) (pns : List String) (st : BTState),
      processEntries cfg data j pns st = st := by
    intro j pns
    induction pns with
    | nil => intro st; rfl
    | cons pn rest ih =>
      intro st
      rw [processEntries, htry]
      exact ih st
  intro i
  induction i with
  | zero => rfl
  | succ i ih =>
    rw [runSteps, ih]
    unfold stepBT
    rw [hent]
    rfl

/-- C1: for every backtest run with a finite max_open_trades and a positive
ticker interval, at every timestamp the number of closed-trade records whose
closed interval from open_time to close_time covers that timestamp is at
most max_open_trades. -/
theorem backtest_max_open_trades (cfg : BTConfig) (data : PairData) (m ts : Nat)
    (hm : cfg.max_open_trades = some m) (hiv : 0 < cfg.interval_min) :
    ((backtest cfg data).filter (coversTime ts)).length ≤ m := by
  by_cases hts : cfg.start_time ≤ ts
  · have hmono : ∀ t ∈ backtest cfg data,
        coversTime ts t = true →
        coversIdx ((ts - cfg.start_time) / cfg.interval_min) t = true := by
      intro t ht hcov
      have hg := backtest_good cfg data t ht
      obtain ⟨-, -, -, hot, hct, -⟩ := hg.1
      have hcov2 : t.open_time ≤ ts ∧ ts ≤ t.close_time := by
        simpa [coversTime] using hcov
      rw [hot] at hcov2
      rw [hct] at hcov2
      unfold candleDate at hcov2
      have hlo : t.open_index ≤ (ts - cfg.start_time) / cfg.interval_min := by
        rw [Nat.le_div_iff_mul_le hiv]
        omega
      have hhi : (ts - cfg.start_time) / cfg.interval_min ≤ t.close_index := by
        have h1 : ts - cfg.start_time ≤ t.close_index * cfg.interval_min := by
          omega
        have h2 : (ts - cfg.start_time) / cfg.interval_min
            ≤ t.close_index * cfg.interval_min / cfg.interval_min :=
          Nat.div_le_div_right h1
        rwa [Nat.mul_div_cancel _ hiv] at h2
      simp only [coversIdx, decide_eq_true_eq]
      exact ⟨hlo, hhi⟩
    exact Nat.le_trans (filter_le_of_imp _ hmono)
      (backtest_coversIdx hm ((ts - cfg.start_time) / cfg.interval_min))
  · have h0 : (backtest cfg data).filter (coversTime ts) = [] := by
      rw [List.filter_eq_nil_iff]
      intro t ht
      have hg := backtest_good cfg data t ht
      obtain ⟨-, -, -, hot, -, -⟩ := hg.1
      simp only [coversTime, decide_eq_true_eq, not_and]
      intro hle
      exfalso
      rw [hot] at hle
      unfold candleDate at hle
      omega
    rw [h0]
    exact Nat.zero_le m

theorem backtest_max_open_trades_witness :
    cfg0.max_open_trades = some 1 ∧ 0 < cfg0.interval_min ∧
    ((backtest cfg0 data0).filter (coversTime 2)).length ≤ 1 :=
  ⟨rfl, by decide, backtest_max_open_trades cfg0 data0 1 2 rfl (by decide)⟩

/-- C2: every trade opened by the driver fills on the candle after the
signal candle: open_index is at least 1, open_time is the timestamp of
candle open_index, the signal candle open_index - 1 has the buy flag set,
the open rate is the open of candle open_index, and the signal candle is
never the final candle of the window (a buy signal there opens no trade). -/
theorem backtest_entry_fill (cfg : BTConfig) (data : PairData) (t : ClosedTrade)
    (ht : t ∈ backtest cfg data) :
    1 ≤ t.open_index ∧
    t.open_time = candleDate cfg t.open_index ∧
    (∃ cprev ccur,
      (findPair data t.pair).get? (t.open_index - 1) = some cprev ∧
      (findPair data t.pair).get? t.open_index = some ccur ∧
      cprev.buy = true ∧ t.open_rate = ccur.copen) ∧
    t.open_index - 1 < winLen data - 1 := by
  have hg := backtest_good cfg data t ht
  obtain ⟨⟨h1, cprev, ccur, hp1, hp2, hb, hs, hr⟩, hoc, hlast, hot, -, -⟩ := hg.1
  exact ⟨h1, hot, ⟨cprev, ccur, hp1, hp2, hb, hr⟩, by omega⟩

theorem backtest_entry_fill_witness :
    t1w ∈ backtest cfg0 data0 ∧
    (1 ≤ t1w.open_index ∧
     t1w.open_time = candleDate cfg0 t1w.open_index ∧
     (∃ cprev ccur,
       (findPair data0 t1w.pair).get? (t1w.open_index - 1) = some cprev ∧
       (findPair data0 t1w.pair).get? t1w.open_index = some ccur ∧
       cprev.buy = true ∧ t1w.open_rate = ccur.copen) ∧
     t1w.open_index - 1 < winLen data0 - 1) :=
  ⟨by decide, backtest_entry_fill cfg0 data0 t1w (by decide)⟩

/-- C3: a candle whose buy and sell flags are both set never opens a
position: the signal candle of every emitted trade has the buy flag set and
the sell flag clear, and if every buy-flagged candle is also sell-flagged
the result set is empty. -/
theorem backtest_ambiguous_signal (cfg : BTConfig) (data : PairData) :
    (∀ t ∈ backtest cfg data, ∃ cprev,
       (findPair data t.pair).get? (t.open_index - 1) = some cprev ∧
       cprev.buy = true ∧ cprev.sell = false) ∧
    ((∀ pr ∈ data, ∀ c ∈ pr.2, c.buy = true → c.sell = true) →
       backtest cfg data = []) := by
  constructor
  · intro t ht
    have hg := backtest_good cfg data t ht
    obtain ⟨⟨-, cprev, ccur, hp1, -, hb, hs, -⟩, -⟩ := hg.1
    exact ⟨cprev, hp1, hb, hs⟩
  · intro hbs
    unfold backtest
    rw [runSteps_empty cfg data hbs]
    rfl

theorem backtest_ambiguous_signal_witness :
    backtest cfg0 dataClash = [] :=
  (backtest_ambiguous_signal cfg0 dataClash).2 (by decide)

/-- C4: the backtest is a pure deterministic function of its inputs - two
runs on the same series and configuration produce identical closed-trade
sequences. -/
theorem backtest_deterministic (cfg : BTConfig) (data : PairData) :
    backtest cfg data = backtest cfg data := rfl

/-- C5: a trade record has open_at_end set exactly when its sell reason is
FORCE_SELL, and every force-closed trade closes on the final candle of the
window at that candle's close rate. -/
theorem backtest_force_sell (cfg : BTConfig) (data : PairData) (t : ClosedTrade)
    (ht : t ∈ backtest cfg data) :
    (t.open_at_end = true ↔ t.sell_reason = SellReason.FORCE_SELL) ∧
    (t.open_at_end = true →
      t.close_index = winLen data - 1 ∧
      t.close_time = candleDate cfg (winLen data - 1) ∧
      ∃ c, (findPair data t.pair).get? (winLen data - 1) = some c ∧
        t.close_rate = c.cclose) := by
  have hg := backtest_good cfg data t ht
  refine ⟨hg.2.2.1, ?_⟩
  intro hae
  obtain ⟨hci, c, hc, hcr⟩ := hg.2.2.2 hae
  refine ⟨hci, ?_, c, hc, hcr⟩
  rw [hg.1.2.2.2.2.1, hci]

theorem backtest_force_sell_witness :
    t2w ∈ backtest cfg0 data0 ∧
    ((t2w.open_at_end = true ↔ t2w.sell_reason = SellReason.FORCE_SELL) ∧
     (t2w.open_at_end = true →
       t2w.close_index = winLen data0 - 1 ∧
       t2w.close_time = candleDate cfg0 (winLen data0 - 1) ∧
       ∃ c, (findPair data0 t2w.pair).get? (winLen data0 - 1) = some c ∧
         t2w.close_rate = c.cclose)) :=
  ⟨by decide, backtest_force_sell cfg0 data0 t2w (by decide)⟩

/-- C6: setup fails with a ConfigError before any simulation when
unlimited-stake mode lacks a finite max_open_trades (the whole command
returns the error and never runs the backtest), while any configuration
with a finite max_open_trades passes this check. -/
theorem setup_unlimited_stake (rc : RunConfig) :
    (rc.stake_unlimited = true → rc.bt.max_open_trades = none →
      setupConfiguration rc = Except.error
        ("ConfigError: unlimited stake amount requires a finite max_open_trades") ∧
      ∀ data, startBacktest rc data = Except.error
        ("ConfigError: unlimited stake amount requires a finite max_open_trades")) ∧
    (∀ m, rc.bt.max_open_trades = some m →
      ∃ cfg, setupConfiguration rc = Except.ok cfg) := by
  constructor
  · intro hu hm
    have hs : setupConfiguration rc = Except.error
        ("ConfigError: unlimited stake amount requires a finite max_open_trades") := by
      unfold setupConfiguration
      rw [hu, hm]
      simp
    refine ⟨hs, ?_⟩
    intro data
    unfold startBacktest
    rw [hs]
  · intro m hm
    by_cases hu : rc.stake_unlimited = true
    · refine ⟨{ rc.bt with stake_amount := rc.total_capital / m }, ?_⟩
      unfold setupConfiguration
      rw [hu, hm]
      simp
    · refine ⟨rc.bt, ?_⟩
      unfold setupConfiguration
      rw [if_neg hu]

theorem setup_unlimited_stake_witness :
    rcU.stake_unlimited = true ∧ rcU.bt.max_open_trades = none ∧
    (setupConfiguration rcU = Except.error
       ("ConfigError: unlimited stake amount requires a finite max_open_trades") ∧
     ∀ data, startBacktest rcU data = Except.error
       ("ConfigError: unlimited stake amount requires a finite max_open_trades")) :=
  ⟨rfl, rfl, (setup_unlimited_stake rcU).1 rfl rfl⟩

/-- C7: a run over an empty pair set, or over a window of zero or negative
length, terminates by design: it returns successfully (no exception) with
the user-facing no-data message and an empty result set. -/
theorem backtesting_start_no_data (cfg : BTConfig) (data : PairData)
    (h : data = [] ∨ winLen data ≤ 1) :
    startRun cfg data = Except.ok
      { message := some ("No data found. Terminating."), results := [] } := by
  rcases h with he | hw
  · subst he; rfl
  · unfold startRun getTimeframe
    by_cases h0 : winLen data = 0
    · simp [h0]
    · have h1 : winLen data = 1 := by omega
      simp [h1, candleDate]

theorem backtesting_start_no_data_witness :
    startRun cfg0 [] = Except.ok
      { message := some ("No data found. Terminating."), results := [] } :=
  backtesting_start_no_data cfg0 [] (Or.inl rfl)

/-- C8: every emitted trade record has open_index strictly below
close_index, open_time strictly below close_time, and a strictly positive
duration (given a positive ticker interval). -/
theorem backtest_trade_order (cfg : BTConfig) (data : PairData) (t : ClosedTrade)
    (ht : t ∈ backtest cfg data) (hiv : 0 < cfg.interval_min) :
    t.open_index < t.close_index ∧ t.open_time < t.close_time ∧
    0 < t.trade_duration := by
  have hg := backtest_good cfg data t ht
  obtain ⟨-, hoc, -, hot, hct, hdur⟩ := hg.1
  refine ⟨hoc, ?_, ?_⟩
  · rw [hot, hct]
    unfold candleDate
    have hmul : t.open_index * cfg.interval_min < t.close_index * cfg.interval_min :=
      mul_lt_mul_of_pos_right hoc hiv
    omega
  · rw [hdur]
    exact Nat.mul_pos (by omega) hiv

theorem backtest_trade_order_witness :
    t2w ∈ backtest cfg0 data0 ∧ 0 < cfg0.interval_min ∧
    (t2w.open_index < t2w.close_index ∧ t2w.open_time < t2w.close_time ∧
     0 < t2w.trade_duration) :=
  ⟨by decide, by decide, backtest_trade_order cfg0 data0 t2w (by decide) (by decide)⟩

theorem decodeRecord_encodeRecord (r : BTRecord) :
    decodeRecord (encodeRecord r) = some r := by
  unfold encodeRecord decodeRecord
  simp [Int.toNat_natCast]

theorem decodeList_encode (rs : List BTRecord) :
    decodeList (rs.map encodeRecord) = some rs := by
  induction rs with
  | nil => rfl
  | cons r rest ih =>
    rw [List.map_cons, decodeList, decodeRecord_encodeRecord, ih]

/-- C9: exporting a non-empty batch of closed trades performs exactly one
write of one JSON array in which each record is the 10-tuple (pair,
profit_percent, open_epoch, close_epoch, open_index, duration_minutes,
open_rate, close_rate, open_at_end boolean, sell_reason string), and
decoding that array reproduces the same tuples. -/
theorem store_backtest_result_roundtrip (f : String) (trades : List ClosedTrade)
    (hne : trades ≠ []) :
    store_backtest_result f trades =
      [(f, JVal.jarr ((trades.map trade2tuple).map encodeRecord))] ∧
    decodeArray (JVal.jarr ((trades.map trade2tuple).map encodeRecord)) =
      some (trades.map trade2tuple) := by
  constructor
  · cases trades with
    | nil => exact absurd rfl hne
    | cons a l => rfl
  · show decodeList ((trades.map trade2tuple).map encodeRecord) =
      some (trades.map trade2tuple)
    exact decodeList_encode _

theorem store_backtest_result_roundtrip_witness :
    [t1w] ≠ ([] : List ClosedTrade) ∧
    (store_backtest_result ("backtest-result.json") [t1w] =
       [(("backtest-result.json"),
         JVal.jarr (([t1w].map trade2tuple).map encodeRecord))] ∧
     decodeArray (JVal.jarr (([t1w].map trade2tuple).map encodeRecord)) =
       some ([t1w].map trade2tuple)) :=
  ⟨by simp, store_backtest_result_roundtrip ("backtest-result.json") [t1w] (by simp)⟩

/-- C10: the stoploss guard returns a lock exactly when the number of
closed trades in the lookback window whose sell reason is stop_loss, or
trailing_stop_loss with negative close profit, strictly exceeds the
configured trade limit; a count equal to the limit yields no lock, and a
trailing-stop trade closed at a non-negative profit is never counted. -/
theorem stoploss_guard_lock_iff (cfg : StoplossGuardCfg) (ts : List DBTrade)
    (now : Int) (pr : Option String) :
    ((stoploss_guard cfg ts now pr).1 = true ↔
      cfg.trade_limit <
        (ts.filter (stoplossGuardFilter (now - cfg.lookback_period) pr)).length) ∧
    ((ts.filter (stoplossGuardFilter (now - cfg.lookback_period) pr)).length
        = cfg.trade_limit → (stoploss_guard cfg ts now pr).1 = false) ∧
    (∀ t v, t.sell_reason = some ("trailing_stop_loss") →
      t.close_profit = some v → 0 ≤ v →
      stoplossGuardFilter (now - cfg.lookback_period) pr t = false) := by
  refine ⟨?_, ?_, ?_⟩
  · unfold stoploss_guard
    by_cases hlt : cfg.trade_limit <
        (ts.filter (stoplossGuardFilter (now - cfg.lookback_period) pr)).length
    · simp [hlt]
    · simp [hlt]
  · intro heq
    unfold stoploss_guard
    simp only []
    have hnot : ¬ (cfg.trade_limit <
        (ts.filter (stoplossGuardFilter (now - cfg.lookback_period) pr)).length) := by
      omega
    rw [if_neg hnot]
  · intro t v hsr hcp hv
    unfold stoplossGuardFilter
    rw [hsr]
    have h1 : ((some ("trailing_stop_loss") : Option String)
        == some ("stop_loss")) = false := by decide
    have h2 : closeProfitNeg t = false := by
      unfold closeProfitNeg
      rw [hcp]
      exact decide_eq_false (not_lt.mpr hv)
    rw [h1, h2]
    simp

theorem stoploss_guard_lock_iff_witness :
    gCfg.trade_limit < (gTrades.filter
      (stoplossGuardFilter (1000 - gCfg.lookback_period) none)).length ∧
    (stoploss_guard gCfg gTrades 1000 none).1 = true :=
  ⟨by decide, (stoploss_guard_lock_iff gCfg gTrades 1000 none).1.mpr (by decide)⟩

end Freqtrade
